import Mathlib

/-!
Verification of the go-loggly-cli concurrent multi-page fetch engine.

The development shallowly embeds the two coordination components of the
repository:

* `orderedbuffer` — the `OrderedBuffer[T]` reassembly buffer
  (src/orderedbuffer/orderedbuffer.go).  Go's `map[int]T` is modelled as an
  association list, the output channel as the list of emitted values, and the
  mutex-serialised `Store`/`send` pair as a pure state transformer.  The
  recursive drain in `send` is written with an explicit fuel argument
  (`responses.length + 1` always suffices, because every successful lookup
  erases the found key), so every definition evaluates inside the kernel.

* `search` — the query builder (src/search/query.go) and the fetch
  orchestrator (src/search/search.go).  The remote HTTP endpoint is an
  abstract oracle (`Endpoint`): one result for search creation and one result
  per page index.  The scheduling loop of `fetchAllPages` is embedded at the
  sequential interleaving in which each spawned page-fetch task runs to
  completion before the coordinator evaluates its break condition; channels
  are modelled as the lists of values sent on them.
-/

namespace orderedbuffer

/-- Lookup in the association-list model of Go's `map[int]T`. -/
def lookup {T : Type} (l : List (Int × T)) (k : Int) : Option T :=
  (l.find? (fun p => p.1 == k)).map (fun p => p.2)

/-- Model of Go's `delete(m, k)`: drop every pair with key `k`. -/
def eraseKey {T : Type} (l : List (Int × T)) (k : Int) : List (Int × T) :=
  l.filter (fun p => p.1 != k)

/-- Model of Go's `m[k] = v`: the new binding shadows (and replaces) any
previous binding of `k`. -/
def insertKey {T : Type} (l : List (Int × T)) (k : Int) (v : T) :
    List (Int × T) :=
  (k, v) :: eraseKey l k

/-- State of `OrderedBuffer[T]` (src/orderedbuffer/orderedbuffer.go): the
pending `responses` map and the `lastSentIdx` cursor.  The output channel is
not part of the state; emissions are returned by the operations. -/
structure OrderedBuffer (T : Type) where
  responses : List (Int × T)
  lastSentIdx : Int
  deriving Repr, DecidableEq

/-- Go `NewOrderedBuffer`: empty map, cursor `-1`. -/
def NewOrderedBuffer (T : Type) : OrderedBuffer T :=
  { responses := [], lastSentIdx := -1 }

/-- The drain loop of `send`: while the entry at `lastSentIdx + 1` is
present, pop it (advance the cursor, delete the key) and emit it.  Emitted
values are instrumented with their index; the Go channel carries only the
value.  The fuel argument only bounds the recursion depth: `send` always
supplies enough fuel, since each iteration deletes one key of the map. -/
def sendAux {T : Type} : Nat → OrderedBuffer T → OrderedBuffer T × List (Int × T)
  | 0, s => (s, [])
  | fuel + 1, s =>
    let newIdx := s.lastSentIdx + 1
    match lookup s.responses newIdx with
    | none => (s, [])
    | some resp =>
      let r := sendAux fuel
        { responses := eraseKey s.responses newIdx, lastSentIdx := newIdx }
      (r.1, (newIdx, resp) :: r.2)

/-- Go `OrderedBuffer.send`: drain every contiguous ready entry starting at
`lastSentIdx + 1`. -/
def send {T : Type} (s : OrderedBuffer T) : OrderedBuffer T × List (Int × T) :=
  sendAux (s.responses.length + 1) s

/-- Go `OrderedBuffer.Store(i, r)`: insert the page under the lock, then drain. -/
def Store {T : Type} (s : OrderedBuffer T) (i : Int) (r : T) :
    OrderedBuffer T × List (Int × T) :=
  send { s with responses := insertKey s.responses i r }

/-- Run a sequence of `Store` operations, concatenating the emissions. -/
def runStores {T : Type} (s : OrderedBuffer T) :
    List (Int × T) → OrderedBuffer T × List (Int × T)
  | [] => (s, [])
  | (i, r) :: rest =>
    let r1 := Store s i r
    let r2 := runStores r1.1 rest
    (r2.1, r1.2 ++ r2.2)

/-- The multiset of keys of the association list (the domain of the map). -/
def keys {T : Type} (l : List (Int × T)) : List Int := l.map Prod.fst

/-- The map `m` agrees with `L` strictly above the cursor `c` and holds
nothing at or below it. -/
def mapsAbove {T : Type} (m : List (Int × T)) (c : Int) (L : Int → Option T) :
    Prop :=
  ∀ x : Int, lookup m x = if c < x then L x else none

/-- Invariant tying a reachable buffer state and its total emission list to
the sequence `l` of `Store` operations that produced them: the cursor counts
the emissions, the emissions are exactly the stored values at indices
`0, 1, …, cursor` in that order, the pending map holds exactly the stored
values strictly above the cursor, and the next index to deliver has not been
stored yet. -/
def BufferInv {T : Type} (l : List (Int × T)) (s : OrderedBuffer T)
    (out : List (Int × T)) : Prop :=
  s.lastSentIdx + 1 = (out.length : Int) ∧
  out.map (fun q => (q.1, some q.2))
    = (List.range out.length).map
        (fun (i : Nat) => ((i : Int), lookup l (i : Int))) ∧
  mapsAbove s.responses s.lastSentIdx (fun x => lookup l x) ∧
  lookup l (s.lastSentIdx + 1) = none

end orderedbuffer

namespace search

/-- Go `Response` (src/search/search.go): total event count, page number and
the events array.  Event records are opaque `any` values in Go; they are
modelled by natural-number identifiers, since only their identity and count
matter to the fetch engine. -/
structure Response where
  Total : Int
  Page : Int
  Events : List Nat
  deriving Repr, DecidableEq

/-- Go `Query` builder struct (src/search/query.go).  The Go field names `from`
and `until` collide with Lean syntax and are embedded as `fromTime` and
`untilTime`. -/
structure Query where
  query : String
  fromTime : String
  untilTime : String
  order : String
  size : Int
  maxPages : Int
  deriving Repr, DecidableEq

/-- Go `NewQuery`: defaults from src/search/query.go (`maxPages` is left at
Go's zero value). -/
def NewQuery (str : String) : Query :=
  { query := str, fromTime := "-24h", untilTime := "now", order := "desc",
    size := 100, maxPages := 0 }

/-- Go `Query.Size`: set response size. -/
def Query.Size (q : Query) (n : Int) : Query := { q with size := n }

/-- Go `Query.From`: set from time. -/
def Query.From (q : Query) (str : String) : Query := { q with fromTime := str }

/-- Go `Query.MaxPage`: set the max page. -/
def Query.MaxPage (q : Query) (maxPages : Int) : Query :=
  { q with maxPages := maxPages }

/-- Go `Query.Until`: set until time. -/
def Query.Until (q : Query) (str : String) : Query := { q with untilTime := str }

/-- Go `Query.To`: set until time. -/
def Query.To (q : Query) (str : String) : Query := { q with untilTime := str }

/-- Go `Client` (src/search/search.go): credentials plus the atomic
`concurrency` counter (an `atomic.Int64`, zero-initialised). -/
structure Client where
  Token : String
  Account : String
  concurrency : Int
  deriving Repr, DecidableEq

/-- Go `New`: create a client; `concurrency` starts at the atomic zero value. -/
def New (account : String) (token : String) : Client :=
  { Account := account, Token := token, concurrency := 0 }

/-- Go `Client.SetConcurrency`: arguments below 1 are replaced by 1 before the
atomic store. -/
def Client.SetConcurrency (c : Client) (n : Int) : Client :=
  let n1 := if n < 1 then 1 else n
  { c with concurrency := n1 }

/-- Go `shouldStopFetching` (src/search/search.go): stop on a task error, a
missing response, or a page shorter than the configured page size. -/
def shouldStopFetching (err : Option String) (res : Option Response)
    (pageSize : Int) : Bool :=
  match err, res with
  | some _, _ => true
  | none, none => true
  | none, some res => decide ((res.Events.length : Int) < pageSize)

/-- Abstract behaviour of the remote endpoint during one `Fetch` call
(spec §6): the outcome of `Client.CreateSearch` and, for each page index,
the outcome of `Client.Search` (one `/events` round trip).  The session
handle is opaque and merely threaded through, so it is not represented.
Errors are modelled by their message strings. -/
structure Endpoint where
  create : Except String Unit
  page : Int → Except String Response

/-- Result of one page-fetch task (`Client.fetchAndStorePage`): the
ordering buffer after the optional `Store`, the values that `Store` emitted
on the response channel, and the `(res, err)` pair of `Client.Search`. -/
structure TaskResult where
  buf : orderedbuffer.OrderedBuffer Response
  emitted : List (Int × Response)
  res : Option Response
  err : Option String

/-- Go `Client.fetchAndStorePage`: fetch one page; on success store it in the
ordering buffer (which may emit a contiguous run of pages). -/
def fetchAndStorePage (ep : Endpoint)
    (buf : orderedbuffer.OrderedBuffer Response) (page : Int) : TaskResult :=
  match ep.page page with
  | .error e => { buf := buf, emitted := [], res := none, err := some e }
  | .ok res =>
    let r := orderedbuffer.Store buf page res
    { buf := r.1, emitted := r.2, res := some res, err := none }

/-- State of the scheduling loop of `Client.fetchAllPages`: the ordering
buffer (`responsesStore`), the values emitted on the response channel so
far, the page indices handed to fetch tasks so far, the first task error
(what `errgroup.Wait` will return), the atomic `page` counter (last
allocated index, starts at `-1`) and the atomic `hasMore` flag. -/
structure FetchLoopState where
  buf : orderedbuffer.OrderedBuffer Response
  emitted : List (Int × Response)
  fetched : List Int
  firstErr : Option String
  page : Int
  hasMore : Bool

/-- One iteration of the scheduling loop of `Client.fetchAllPages` at the
sequential interleaving: allocate the next page index (`p := page.Add(1)`),
run the spawned task to completion (fetch the page, store it, clear
`hasMore` when `shouldStopFetching` fires, hand its error to the
errgroup). -/
def loopStep (ep : Endpoint) (q : Query) (st : FetchLoopState) :
    FetchLoopState :=
  let p := st.page + 1
  let r := fetchAndStorePage ep st.buf p
  let hasMore1 := if shouldStopFetching r.err r.res q.size then false
    else st.hasMore
  { buf := r.buf, emitted := st.emitted ++ r.emitted,
    fetched := st.fetched ++ [p], firstErr := st.firstErr.or r.err,
    page := p, hasMore := hasMore1 }

/-- The scheduling loop of `Client.fetchAllPages`, embedded at the
sequential interleaving in which each spawned task runs to completion
before the coordinator evaluates `shouldBreak := page.Load() >= q.maxPages
|| !hasMore.Load()`.  The fuel argument only bounds the recursion depth;
the caller passes enough fuel for the `page >= q.maxPages` break to fire
first. -/
def fetchPagesLoop (ep : Endpoint) (q : Query) :
    Nat → FetchLoopState → FetchLoopState
  | 0, st => st
  | fuel + 1, st =>
    let st1 := loopStep ep q st
    if decide (q.maxPages ≤ st1.page) || !st1.hasMore then st1
    else fetchPagesLoop ep q fuel st1

/-- The list of `n` consecutive integers starting at `s`. -/
def intsFrom (s : Int) (n : Nat) : List Int :=
  (List.range n).map (fun (i : Nat) => s + (i : Int))

/-- Capacity of the bounded semaphore gating concurrent page fetches:
`concurrent := min(q.maxPages, c.concurrency.Load())`
(src/search/search.go, `Client.fetchAllPages`). -/
def concurrent (q : Query) (concurrency : Int) : Int :=
  min q.maxPages concurrency

/-- Result of `Client.fetchAllPages`: the error it returns, the `(index,
page)` pairs emitted on the response channel in order, the page indices
handed to fetch tasks in order, and whether the run deadlocked.  A
semaphore of capacity 0 blocks the first `Acquire` forever (and Go panics
outright on a negative channel capacity), so with `concurrent < 1` the loop
never starts, nothing is emitted and the call never returns. -/
structure PagesResult where
  err : Option String
  emitted : List (Int × Response)
  fetched : List Int
  blocked : Bool

/-- Initial state of the scheduling loop: fresh ordering buffer, atomic
`page` counter at `-1`, `hasMore` set to true, nothing fetched or
emitted. -/
def startState : FetchLoopState :=
  { buf := orderedbuffer.NewOrderedBuffer Response, emitted := [],
    fetched := [], firstErr := none, page := -1, hasMore := true }

/-- Go `Client.fetchAllPages` at the sequential interleaving: create the
search (failure is returned at once), size the semaphore, run the
scheduling loop, return what `errgroup.Wait` collected. -/
def Client.fetchAllPages (c : Client) (ep : Endpoint) (q : Query) :
    PagesResult :=
  match ep.create with
  | .error e => { err := some e, emitted := [], fetched := [], blocked := false }
  | .ok _ =>
    if concurrent q c.concurrency < 1 then
      { err := none, emitted := [], fetched := [], blocked := true }
    else
      let stf := fetchPagesLoop ep q ((q.maxPages + 1).toNat + 1) startState
      { err := stf.firstErr, emitted := stf.emitted, fetched := stf.fetched,
        blocked := false }

/-- Observable outcome of `Client.Fetch`: the pages delivered on the
response channel in order, the errors sent on the error channel in order,
the page indices fetched, and whether the goroutine deadlocked (in which
case neither channel is ever closed). -/
structure FetchOutcome where
  delivered : List Response
  errors : List String
  fetched : List Int
  blocked : Bool
  deriving Repr, DecidableEq

/-- Go `Client.Fetch`: run `fetchAllPages`; a non-nil result error is sent on
the error channel, then both channels are closed. -/
def Client.Fetch (c : Client) (ep : Endpoint) (q : Query) : FetchOutcome :=
  let r := c.fetchAllPages ep q
  { delivered := r.emitted.map Prod.snd,
    errors := match r.err with | some e => [e] | none => [],
    fetched := r.fetched,
    blocked := r.blocked }

end search

namespace orderedbuffer

theorem lookup_nil {T : Type} (k : Int) :
    lookup ([] : List (Int × T)) k = none := rfl

theorem lookup_cons {T : Type} (a : Int × T) (l : List (Int × T)) (x : Int) :
    lookup (a :: l) x = if a.1 = x then some a.2 else lookup l x := by
  by_cases h : a.1 = x <;> simp [lookup, List.find?_cons, h]

theorem lookup_eraseKey {T : Type} (l : List (Int × T)) (k x : Int) :
    lookup (eraseKey l k) x = if x = k then none else lookup l x := by
  induction l with
  | nil =>
    simp only [eraseKey, List.filter_nil, lookup_nil]
    split <;> rfl
  | cons a t ih =>
    by_cases hak : a.1 = k
    · have hdrop : eraseKey (a :: t) k = eraseKey t k := by
        simp [eraseKey, List.filter_cons, hak]
      rw [hdrop, ih, lookup_cons]
      by_cases hxk : x = k
      · simp [hxk]
      · have hax : a.1 ≠ x := by
          rw [hak]; exact fun hh => hxk hh.symm
        simp [hxk, hax]
    · have hkeep : eraseKey (a :: t) k = a :: eraseKey t k := by
        simp [eraseKey, List.filter_cons, hak]
      rw [hkeep, lookup_cons, lookup_cons, ih]
      by_cases hax : a.1 = x
      · have hxk : x ≠ k := by
          rw [← hax]; exact fun hh => hak hh
        simp [hax, hxk]
      · simp [hax]

theorem lookup_insertKey {T : Type} (l : List (Int × T)) (k x : Int) (v : T) :
    lookup (insertKey l k v) x = if x = k then some v else lookup l x := by
  by_cases h : x = k
  · simp [insertKey, lookup_cons, h]
  · simp only [insertKey, lookup_cons]
    rw [if_neg (fun hh => h hh.symm), lookup_eraseKey, if_neg h, if_neg h]

theorem lookup_append {T : Type} (l1 l2 : List (Int × T)) (x : Int) :
    lookup (l1 ++ l2) x = (lookup l1 x).or (lookup l2 x) := by
  simp only [lookup, List.find?_append]
  cases l1.find? (fun p => p.1 == x) <;> simp

theorem lookup_eq_none_iff {T : Type} (l : List (Int × T)) (k : Int) :
    lookup l k = none ↔ k ∉ keys l := by
  constructor
  · intro h hk
    obtain ⟨p, hp, hpk⟩ := List.mem_map.mp hk
    have hfn : l.find? (fun q => q.1 == k) = none := by
      rcases hf : l.find? (fun q => q.1 == k) with _ | q
      · exact hf
      · simp [lookup, hf] at h
    have := List.find?_eq_none.mp hfn p hp
    simp [hpk] at this
  · intro h
    have hfn : l.find? (fun q => q.1 == k) = none := by
      apply List.find?_eq_none.mpr
      intro x hx hbeq
      simp only [beq_iff_eq] at hbeq
      exact h (List.mem_map.mpr ⟨x, hx, hbeq⟩)
    simp [lookup, hfn]

theorem lookup_eq_some_of_mem {T : Type} {l : List (Int × T)} {k : Int} {v : T}
    (hnd : (keys l).Nodup) (hm : (k, v) ∈ l) : lookup l k = some v := by
  induction l with
  | nil => cases hm
  | cons a t ih =>
    have hnd1 : a.1 ∉ List.map Prod.fst t ∧ (List.map Prod.fst t).Nodup := by
      simpa [keys] using hnd
    rcases List.mem_cons.mp hm with h | h
    · rw [← h, lookup_cons, if_pos rfl]
    · have hk : k ∈ List.map Prod.fst t := List.mem_map.mpr ⟨(k, v), h, rfl⟩
      have hak : a.1 ≠ k := fun hh => hnd1.1 (hh ▸ hk)
      rw [lookup_cons, if_neg hak]
      exact ih hnd1.2 h

theorem eraseKey_length_lt {T : Type} {l : List (Int × T)} {k : Int} {v : T}
    (h : lookup l k = some v) : (eraseKey l k).length < l.length := by
  have hfind : ∃ q, l.find? (fun q => q.1 == k) = some q := by
    rcases hh : l.find? (fun q => q.1 == k) with _ | q
    · simp [lookup, hh] at h
    · exact ⟨q, hh⟩
  obtain ⟨q, hq⟩ := hfind
  have hmem : q ∈ l := List.mem_of_find?_eq_some hq
  have hqk := List.find?_some hq
  simp only [beq_iff_eq] at hqk
  refine List.length_filter_lt_length_iff_exists.mpr ⟨q, hmem, ?_⟩
  simp [hqk]

/-- What one `send` call does when the pending map agrees with `L` strictly
above the cursor: it emits the maximal contiguous run of `L` starting at
`cursor + 1` (with the matching indices, in ascending order), advances the
cursor past it, erases exactly those keys, and stops at the first missing
index. -/
theorem sendAux_char {T : Type} (L : Int → Option T) :
    ∀ (fuel : Nat) (m : List (Int × T)) (c : Int),
      m.length < fuel → mapsAbove m c L →
      ∃ n : Nat,
        (sendAux fuel ⟨m, c⟩).1.lastSentIdx = c + (n : Int) ∧
        mapsAbove (sendAux fuel ⟨m, c⟩).1.responses (c + (n : Int)) L ∧
        (sendAux fuel ⟨m, c⟩).2.map (fun q => (q.1, some q.2))
          = (List.range n).map
              (fun (i : Nat) => (c + 1 + (i : Int), L (c + 1 + (i : Int)))) ∧
        L (c + 1 + (n : Int)) = none := by
  intro fuel
  induction fuel with
  | zero =>
    intro m c hlen hma
    exact absurd hlen (by omega)
  | succ fuel ih =>
    intro m c hlen hma
    have hLc : lookup m (c + 1) = L (c + 1) := by
      have := hma (c + 1)
      simpa using this
    cases hl : lookup m (c + 1) with
    | none =>
      have hstep : sendAux (fuel + 1) (⟨m, c⟩ : OrderedBuffer T) = (⟨m, c⟩, []) := by
        simp [sendAux, hl]
      have hnone : L (c + 1) = none := by rw [← hLc]; exact hl
      refine ⟨0, ?_, ?_, ?_, ?_⟩
      · rw [hstep]; simp
      · rw [hstep]; simpa using hma
      · rw [hstep]; simp
      · simpa using hnone
    | some v =>
      have hv : L (c + 1) = some v := by rw [← hLc]; exact hl
      have hlen1 : (eraseKey m (c + 1)).length < fuel := by
        have := eraseKey_length_lt (l := m) (k := c + 1) (v := v) hl
        omega
      have hma1 : mapsAbove (eraseKey m (c + 1)) (c + 1) L := by
        intro x
        rw [lookup_eraseKey]
        by_cases hx : x = c + 1
        · simp [hx]
        · rw [if_neg hx, hma x]
          by_cases h2 : c + 1 < x
          · have h1 : c < x := by omega
            simp [h1, h2]
          · by_cases h1 : c < x
            · have : x = c + 1 := by omega
              exact absurd this hx
            · simp [h1, h2]
      obtain ⟨n, h1, h2, h3, h4⟩ := ih (eraseKey m (c + 1)) (c + 1) hlen1 hma1
      have hstep : sendAux (fuel + 1) (⟨m, c⟩ : OrderedBuffer T)
          = ((sendAux fuel ⟨eraseKey m (c + 1), c + 1⟩).1,
             (c + 1, v) :: (sendAux fuel ⟨eraseKey m (c + 1), c + 1⟩).2) := by
        simp [sendAux, hl]
      refine ⟨n + 1, ?_, ?_, ?_, ?_⟩
      · rw [hstep]
        simp only
        rw [h1]
        push_cast
        ring
      · rw [hstep]
        simp only
        have harith : c + ((n + 1 : Nat) : Int) = c + 1 + (n : Int) := by
          push_cast; ring
        rw [harith]
        exact h2
      · rw [hstep]
        simp only [List.map_cons]
        rw [h3, List.range_succ_eq_map, List.map_cons, List.map_map]
        refine List.cons_eq_cons.mpr ⟨?_, ?_⟩
        · simp [hv]
        · apply List.map_congr_left
          intro i _
          have harith : c + 1 + 1 + (i : Int) = c + 1 + ((Nat.succ i : Nat) : Int) := by
            push_cast; ring
          simp only [Function.comp]
          rw [harith]
      · have harith : c + 1 + ((n + 1 : Nat) : Int) = c + 1 + 1 + (n : Int) := by
          push_cast; ring
        rw [harith]
        exact h4

theorem runStores_append {T : Type} (s : OrderedBuffer T)
    (l1 l2 : List (Int × T)) :
    runStores s (l1 ++ l2)
      = ((runStores (runStores s l1).1 l2).1,
         (runStores s l1).2 ++ (runStores (runStores s l1).1 l2).2) := by
  induction l1 generalizing s with
  | nil => simp [runStores]
  | cons a t ih =>
    obtain ⟨i, r⟩ := a
    simp only [List.cons_append, runStores, List.append_eq]
    rw [ih]
    simp [List.append_assoc]

/-- One fresh nonnegative `Store` preserves the buffer invariant. -/
theorem Store_inv {T : Type} {l : List (Int × T)} {s : OrderedBuffer T}
    {out : List (Int × T)} (hInv : BufferInv l s out) (k : Int) (v : T)
    (hk0 : 0 ≤ k) (hknotin : k ∉ keys l) :
    BufferInv (l ++ [(k, v)]) (Store s k v).1 (out ++ (Store s k v).2) := by
  obtain ⟨hlen, hout, hma, hsat⟩ := hInv
  have hlknone : lookup l k = none := (lookup_eq_none_iff l k).mpr hknotin
  have hck : s.lastSentIdx < k := by
    by_contra hcon
    push_neg at hcon
    have hj : k.toNat < out.length := by omega
    have hel := congrArg (fun t => t[k.toNat]?) hout
    simp only [List.getElem?_map, List.getElem?_range hj] at hel
    have hcast : ((k.toNat : Nat) : Int) = k := Int.toNat_of_nonneg hk0
    cases ho : out[k.toNat]? with
    | none => rw [ho] at hel; simp at hel
    | some q =>
      rw [ho] at hel
      simp only [Option.map_some', Option.some_inj, Prod.ext_iff, hcast] at hel
      rw [hlknone] at hel
      exact Option.noConfusion hel.2
  have hma1 : mapsAbove (insertKey s.responses k v) s.lastSentIdx
      (fun x => lookup (l ++ [(k, v)]) x) := by
    intro x
    show lookup (insertKey s.responses k v) x
        = if s.lastSentIdx < x then lookup (l ++ [(k, v)]) x else none
    rw [lookup_insertKey]
    by_cases hxk : x = k
    · rw [if_pos hxk, hxk, if_pos hck, lookup_append, hlknone]
      simp [lookup_cons]
    · rw [if_neg hxk]
      have hsingle : lookup [(k, v)] x = none := by
        rw [lookup_cons, if_neg (fun hh => hxk hh.symm)]
        rfl
      rw [lookup_append, hsingle, Option.or_none]
      exact hma x
  have hSeq : Store s k v
      = sendAux ((insertKey s.responses k v).length + 1)
          ⟨insertKey s.responses k v, s.lastSentIdx⟩ := rfl
  obtain ⟨n, h1, h2, h3, h4⟩ :=
    sendAux_char (fun x => lookup (l ++ [(k, v)]) x)
      ((insertKey s.responses k v).length + 1)
      (insertKey s.responses k v) s.lastSentIdx (by omega) hma1
  rw [hSeq] at *
  have hn2 : (sendAux ((insertKey s.responses k v).length + 1)
      ⟨insertKey s.responses k v, s.lastSentIdx⟩).2.length = n := by
    have := congrArg List.length h3
    simpa using this
  refine ⟨?_, ?_, ?_, ?_⟩
  · rw [h1]
    simp only [List.length_append, hn2]
    push_cast
    omega
  · rw [List.map_append, hout, h3, List.length_append, hn2, List.range_add,
      List.map_append, List.map_map]
    congr 1
    · apply List.map_congr_left
      intro i hi
      have hi2 : i < out.length := List.mem_range.mp hi
      have hik : (i : Int) ≠ k := by omega
      rw [lookup_append]
      have hsingle : lookup [(k, v)] (i : Int) = none := by
        rw [lookup_cons, if_neg (fun hh => hik hh.symm)]
        rfl
      rw [hsingle, Option.or_none]
    · apply List.map_congr_left
      intro i _
      have harith : ((out.length + i : Nat) : Int) = s.lastSentIdx + 1 + (i : Int) := by
        push_cast; omega
      simp only [Function.comp]
      rw [harith]
  · rw [h1]
    exact h2
  · rw [h1]
    have harith : s.lastSentIdx + (n : Int) + 1 = s.lastSentIdx + 1 + (n : Int) := by
      ring
    rw [harith]
    exact h4

/-- Every sequence of `Store` calls with pairwise-distinct nonnegative
indices, run from a fresh buffer, reaches a state satisfying `BufferInv`. -/
theorem runStores_inv {T : Type} :
    ∀ (l : List (Int × T)), (keys l).Nodup → (∀ k ∈ keys l, 0 ≤ k) →
      BufferInv l (runStores (NewOrderedBuffer T) l).1
        (runStores (NewOrderedBuffer T) l).2 := by
  intro l
  induction l using List.reverseRecOn with
  | nil =>
    intro _ _
    refine ⟨?_, ?_, ?_, ?_⟩
    · simp [runStores, NewOrderedBuffer]
    · simp [runStores]
    · intro x
      simp only [runStores, NewOrderedBuffer, lookup_nil]
      split <;> rfl
    · simp [runStores, NewOrderedBuffer, lookup_nil]
  | append_singleton l a ih =>
    obtain ⟨k, v⟩ := a
    intro hnd hnn
    have hkeys : keys (l ++ [(k, v)]) = keys l ++ [k] := by simp [keys]
    rw [hkeys] at hnd hnn
    have hparts := (List.nodup_append).mp hnd
    have hnd1 : (keys l).Nodup := hparts.1
    have hknotin : k ∉ keys l := by
      intro hk
      exact hparts.2.2 hk (by simp)
    have hnn1 : ∀ x ∈ keys l, 0 ≤ x := fun x hx => hnn x (by simp [hx])
    have hk0 : 0 ≤ k := hnn k (by simp)
    have H := Store_inv (ih hnd1 hnn1) k v hk0 hknotin
    rw [runStores_append]
    simpa [runStores] using H

/-- Storing exactly the next expected index into an empty buffer emits
that single entry and advances the cursor onto it. -/
theorem Store_at_cursor {T : Type} (x : Int) (v : T) :
    Store { responses := [], lastSentIdx := x - 1 } x v
      = ({ responses := [], lastSentIdx := x }, [(x, v)]) := by
  have hx : x - 1 + 1 = x := by ring
  simp [Store, send, insertKey, eraseKey, lookup, sendAux, hx, List.find?_cons]

/-- From the emission equation of `BufferInv`: every index below the
emission count was stored. -/
theorem out_lookup_isSome {T : Type} {l out : List (Int × T)}
    (hout : out.map (fun q => (q.1, some q.2))
      = (List.range out.length).map
          (fun (i : Nat) => ((i : Int), lookup l (i : Int))))
    {j : Nat} (hj : j < out.length) :
    ∃ v, lookup l (j : Int) = some v := by
  have hel := congrArg (fun t => t[j]?) hout
  simp only [List.getElem?_map, List.getElem?_range hj] at hel
  cases ho : out[j]? with
  | none => rw [ho] at hel; simp at hel
  | some q2 =>
    rw [ho] at hel
    simp only [Option.map_some', Option.some_inj, Prod.ext_iff] at hel
    exact ⟨q2.2, hel.2.symm⟩

end orderedbuffer

namespace search

theorem intsFrom_one (s : Int) : intsFrom s 1 = [s] := by
  simp [intsFrom, List.range_succ]

theorem intsFrom_succ (s : Int) (n : Nat) :
    intsFrom s (n + 1) = s :: intsFrom (s + 1) n := by
  simp only [intsFrom, List.range_succ_eq_map, List.map_cons, List.map_map]
  refine List.cons_eq_cons.mpr ⟨by simp, ?_⟩
  apply List.map_congr_left
  intro i _
  simp only [Function.comp]
  push_cast
  ring

theorem loopStep_fetched (ep : Endpoint) (q : Query) (st : FetchLoopState) :
    (loopStep ep q st).fetched = st.fetched ++ [st.page + 1] := rfl

theorem loopStep_page (ep : Endpoint) (q : Query) (st : FetchLoopState) :
    (loopStep ep q st).page = st.page + 1 := rfl

theorem loopStep_firstErr_ok {ep : Endpoint} {st : FetchLoopState}
    {res : Response} (q : Query) (hp : ep.page (st.page + 1) = .ok res) :
    (loopStep ep q st).firstErr = st.firstErr := by
  simp [loopStep, fetchAndStorePage, hp, Option.or_none]

theorem loopStep_firstErr_error {ep : Endpoint} {st : FetchLoopState}
    {e : String} (q : Query) (hp : ep.page (st.page + 1) = .error e) :
    (loopStep ep q st).firstErr = st.firstErr.or (some e) := by
  simp [loopStep, fetchAndStorePage, hp]

theorem loopStep_hasMore_error {ep : Endpoint} {st : FetchLoopState}
    {e : String} (q : Query) (hp : ep.page (st.page + 1) = .error e) :
    (loopStep ep q st).hasMore = false := by
  simp [loopStep, fetchAndStorePage, hp, shouldStopFetching]

/-- The scheduling loop never hands out a page index above `q.maxPages`. -/
theorem fetchPagesLoop_le_maxPages (ep : Endpoint) (q : Query) :
    ∀ (fuel : Nat) (st : FetchLoopState),
      st.page < q.maxPages →
      (∀ i ∈ st.fetched, i ≤ q.maxPages) →
      ∀ i ∈ (fetchPagesLoop ep q fuel st).fetched, i ≤ q.maxPages := by
  intro fuel
  induction fuel with
  | zero =>
    intro st hpage hf
    simpa [fetchPagesLoop] using hf
  | succ fuel ih =>
    intro st hpage hf
    have hfetched1 : ∀ i ∈ (loopStep ep q st).fetched, i ≤ q.maxPages := by
      intro i hi
      rw [loopStep_fetched] at hi
      rcases List.mem_append.mp hi with h | h
      · exact hf i h
      · have : i = st.page + 1 := by simpa using h
        omega
    simp only [fetchPagesLoop]
    by_cases hb : (decide (q.maxPages ≤ (loopStep ep q st).page)
        || !(loopStep ep q st).hasMore) = true
    · rw [if_pos hb]
      exact hfetched1
    · rw [if_neg hb]
      apply ih
      · simp only [Bool.or_eq_true, decide_eq_true_eq, not_or,
          loopStep_page] at hb
        rw [loopStep_page]
        omega
      · exact hfetched1

/-- If the loop finishes with no recorded error, every page it fetched
(beyond those already fetched at entry) came back successfully. -/
theorem fetchPagesLoop_ok_of_no_error (ep : Endpoint) (q : Query) :
    ∀ (fuel : Nat) (st : FetchLoopState),
      (fetchPagesLoop ep q fuel st).firstErr = none →
      ∀ i ∈ (fetchPagesLoop ep q fuel st).fetched,
        i ∈ st.fetched ∨ ∃ res, ep.page i = .ok res := by
  intro fuel
  induction fuel with
  | zero =>
    intro st _ i hi
    left
    simpa [fetchPagesLoop] using hi
  | succ fuel ih =>
    intro st hfe i hi
    simp only [fetchPagesLoop] at hfe hi
    cases hp : ep.page (st.page + 1) with
    | error e =>
      have hbreak : (decide (q.maxPages ≤ (loopStep ep q st).page)
          || !(loopStep ep q st).hasMore) = true := by
        rw [loopStep_hasMore_error q hp]
        simp
      rw [if_pos hbreak] at hfe
      rw [loopStep_firstErr_error q hp] at hfe
      cases hsf : st.firstErr <;> rw [hsf] at hfe <;> simp [Option.or] at hfe
    | ok res =>
      by_cases hb : (decide (q.maxPages ≤ (loopStep ep q st).page)
          || !(loopStep ep q st).hasMore) = true
      · rw [if_pos hb] at hfe hi
        rw [loopStep_fetched] at hi
        rcases List.mem_append.mp hi with h | h
        · exact Or.inl h
        · right
          have hip : i = st.page + 1 := by simpa using h
          rw [hip]
          exact ⟨res, hp⟩
      · rw [if_neg hb] at hfe hi
        rcases ih (loopStep ep q st) hfe i hi with h | h
        · rw [loopStep_fetched] at h
          rcases List.mem_append.mp h with h2 | h2
          · exact Or.inl h2
          · right
            have hip : i = st.page + 1 := by simpa using h2
            rw [hip]
            exact ⟨res, hp⟩
        · exact Or.inr h

/-- Full trace of the scheduling loop against an endpoint that returns full
pages strictly below `K` and a short page at `K`, with `K` below the page
bound: starting `n` pages before `K` with an empty, in-sync buffer, the
loop fetches and delivers pages `j, …, K` in order and stops with
`hasMore = false` and no error. -/
theorem fetchPagesLoop_full_run (ep : Endpoint) (q : Query) (K : Int)
    (r : Int → Response) (hKm : K < q.maxPages)
    (hfull : ∀ i : Int, 0 ≤ i → i < K →
      ep.page i = .ok (r i) ∧ ((r i).Events.length : Int) = q.size)
    (hshort : ep.page K = .ok (r K) ∧ ((r K).Events.length : Int) < q.size) :
    ∀ (n : Nat) (j : Int), j + (n : Int) = K → 0 ≤ j →
      ∀ (fuel : Nat), n < fuel →
      ∀ (E : List (Int × Response)) (F : List Int),
        fetchPagesLoop ep q fuel
          { buf := { responses := [], lastSentIdx := j - 1 }, emitted := E,
            fetched := F, firstErr := none, page := j - 1, hasMore := true }
        = { buf := { responses := [], lastSentIdx := K },
            emitted := E ++ (intsFrom j (n + 1)).map (fun i => (i, r i)),
            fetched := F ++ intsFrom j (n + 1),
            firstErr := none, page := K, hasMore := false } := by
  intro n
  induction n with
  | zero =>
    intro j hjK hj0 fuel hfuel E F
    have hjeq : j = K := by push_cast at hjK; omega
    subst hjeq
    cases fuel with
    | zero => omega
    | succ fuel =>
      have hj : j - 1 + 1 = j := by ring
      have hstep : loopStep ep q
          { buf := { responses := [], lastSentIdx := j - 1 }, emitted := E,
            fetched := F, firstErr := none, page := j - 1, hasMore := true }
          = { buf := { responses := [], lastSentIdx := j },
              emitted := E ++ [(j, r j)], fetched := F ++ [j],
              firstErr := none, page := j, hasMore := false } := by
        simp [loopStep, fetchAndStorePage, hj, hshort.1,
          orderedbuffer.Store_at_cursor, shouldStopFetching, hshort.2,
          Option.or]
      simp only [fetchPagesLoop]
      rw [hstep]
      simp [intsFrom_one]
  | succ n ih =>
    intro j hjK hj0 fuel hfuel E F
    have hjK2 : j < K := by push_cast at hjK; omega
    cases fuel with
    | zero => omega
    | succ fuel =>
      have hj : j - 1 + 1 = j := by ring
      obtain ⟨hpj, hlenj⟩ := hfull j hj0 hjK2
      have hstep : loopStep ep q
          { buf := { responses := [], lastSentIdx := j - 1 }, emitted := E,
            fetched := F, firstErr := none, page := j - 1, hasMore := true }
          = { buf := { responses := [], lastSentIdx := j },
              emitted := E ++ [(j, r j)], fetched := F ++ [j],
              firstErr := none, page := j, hasMore := true } := by
        simp [loopStep, fetchAndStorePage, hj, hpj,
          orderedbuffer.Store_at_cursor, shouldStopFetching, hlenj,
          Option.or]
      simp only [fetchPagesLoop]
      rw [hstep]
      rw [if_neg (by simp; omega)]
      have IH := ih (j + 1) (by push_cast at hjK ⊢; omega) (by omega) fuel
        (by omega) (E ++ [(j, r j)]) (F ++ [j])
      simp only [show j + 1 - 1 = j from by ring] at IH
      rw [IH]
      rw [intsFrom_succ j (n + 1)]
      simp [List.append_assoc]

theorem fetchAllPages_error {ep : Endpoint} {e : String} (c : Client)
    (q : Query) (hc : ep.create = .error e) :
    c.fetchAllPages ep q
      = { err := some e, emitted := [], fetched := [], blocked := false } := by
  simp [Client.fetchAllPages, hc]

theorem fetchAllPages_blocked {ep : Endpoint} {u : Unit} (c : Client)
    (q : Query) (hc : ep.create = .ok u)
    (hcap : concurrent q c.concurrency < 1) :
    c.fetchAllPages ep q
      = { err := none, emitted := [], fetched := [], blocked := true } := by
  simp [Client.fetchAllPages, hc, hcap]

theorem fetchAllPages_ok {ep : Endpoint} {u : Unit} (c : Client) (q : Query)
    (hc : ep.create = .ok u) (hcap : ¬ concurrent q c.concurrency < 1) :
    c.fetchAllPages ep q
      = { err := (fetchPagesLoop ep q ((q.maxPages + 1).toNat + 1)
            startState).firstErr,
          emitted := (fetchPagesLoop ep q ((q.maxPages + 1).toNat + 1)
            startState).emitted,
          fetched := (fetchPagesLoop ep q ((q.maxPages + 1).toNat + 1)
            startState).fetched,
          blocked := false } := by
  simp [Client.fetchAllPages, hc, hcap]

theorem Fetch_fetched (c : Client) (ep : Endpoint) (q : Query) :
    (Client.Fetch c ep q).fetched = (c.fetchAllPages ep q).fetched := rfl

theorem Fetch_delivered (c : Client) (ep : Endpoint) (q : Query) :
    (Client.Fetch c ep q).delivered
      = (c.fetchAllPages ep q).emitted.map Prod.snd := rfl

theorem Fetch_errors_eq_nil_iff (c : Client) (ep : Endpoint) (q : Query) :
    (Client.Fetch c ep q).errors = [] ↔ (c.fetchAllPages ep q).err = none := by
  simp only [Client.Fetch]
  cases (c.fetchAllPages ep q).err <;> simp

end search

/-- C3: for every query with a nonnegative max page count `M` and every
endpoint behaviour, `Fetch` never issues a page fetch for a page index
strictly greater than `M`: the max page count is an inclusive upper bound
on the page index. -/
theorem C3_no_fetch_beyond_maxPages (c : search.Client) (ep : search.Endpoint)
    (q : search.Query) (hm : 0 ≤ q.maxPages) :
    ∀ i ∈ (search.Client.Fetch c ep q).fetched, i ≤ q.maxPages := by
  intro i hi
  rw [search.Fetch_fetched] at hi
  cases hc : ep.create with
  | error e =>
    rw [search.fetchAllPages_error c q hc] at hi
    simp at hi
  | ok u =>
    by_cases hcap : search.concurrent q c.concurrency < 1
    · rw [search.fetchAllPages_blocked c q hc hcap] at hi
      simp at hi
    · rw [search.fetchAllPages_ok c q hc hcap] at hi
      refine search.fetchPagesLoop_le_maxPages ep q _ search.startState ?_ ?_ i hi
      · show (-1 : Int) < q.maxPages
        omega
      · intro x hx
        simp [search.startState] at hx

/-- Witness for C3: with max page count 2 and an endpoint that always
returns full pages, page index 2 is fetched and the bound 2 holds for it. -/
theorem C3_witness :
    0 ≤ (((search.NewQuery "q").Size 2).MaxPage 2).maxPages ∧
      (2 : Int) ∈ (search.Client.Fetch ((search.New "acc" "tok").SetConcurrency 3)
          { create := .ok (), page := fun i => .ok ⟨9, i, [1, 2]⟩ }
          (((search.NewQuery "q").Size 2).MaxPage 2)).fetched ∧
      (2 : Int) ≤ (((search.NewQuery "q").Size 2).MaxPage 2).maxPages :=
  ⟨by decide, by decide,
   C3_no_fetch_beyond_maxPages ((search.New "acc" "tok").SetConcurrency 3)
     { create := .ok (), page := fun i => .ok ⟨9, i, [1, 2]⟩ }
     (((search.NewQuery "q").Size 2).MaxPage 2) (by decide) 2 (by decide)⟩

/-- C7: whenever at least one page-fetch task of a `Fetch` call fails, at
least one error resulting from a failed task is surfaced on the error
channel. -/
theorem C7_task_failure_surfaces_error (c : search.Client)
    (ep : search.Endpoint) (q : search.Query)
    (hfail : ∃ i ∈ (search.Client.Fetch c ep q).fetched,
      ∃ e, ep.page i = .error e) :
    (search.Client.Fetch c ep q).errors ≠ [] := by
  obtain ⟨i, hi, e, he⟩ := hfail
  rw [search.Fetch_fetched] at hi
  intro hnil
  rw [search.Fetch_errors_eq_nil_iff] at hnil
  cases hc : ep.create with
  | error e2 =>
    rw [search.fetchAllPages_error c q hc] at hnil
    exact Option.noConfusion hnil
  | ok u =>
    by_cases hcap : search.concurrent q c.concurrency < 1
    · rw [search.fetchAllPages_blocked c q hc hcap] at hi
      simp at hi
    · rw [search.fetchAllPages_ok c q hc hcap] at hi hnil
      have hfe : (search.fetchPagesLoop ep q ((q.maxPages + 1).toNat + 1)
          search.startState).firstErr = none := hnil
      rcases search.fetchPagesLoop_ok_of_no_error ep q _ search.startState hfe
          i hi with h | h
      · simp [search.startState] at h
      · obtain ⟨res, hres⟩ := h
        rw [he] at hres
        exact Except.noConfusion hres

/-- Witness for C7: an endpoint whose page-2 fetch fails; the error channel
carries an error. -/
theorem C7_witness :
    (∃ i ∈ (search.Client.Fetch ((search.New "acc" "tok").SetConcurrency 1)
        { create := .ok (),
          page := fun i => if i = 2 then .error "boom" else .ok ⟨9, i, [1, 2]⟩ }
        (((search.NewQuery "q").Size 2).MaxPage 9)).fetched,
      ∃ e, (if i = (2 : Int) then Except.error "boom"
        else Except.ok (⟨9, i, [1, 2]⟩ : search.Response)) = .error e) ∧
      (search.Client.Fetch ((search.New "acc" "tok").SetConcurrency 1)
        { create := .ok (),
          page := fun i => if i = 2 then .error "boom" else .ok ⟨9, i, [1, 2]⟩ }
        (((search.NewQuery "q").Size 2).MaxPage 9)).errors ≠ [] :=
  ⟨⟨2, by decide, "boom", by rfl⟩,
   C7_task_failure_surfaces_error ((search.New "acc" "tok").SetConcurrency 1)
     { create := .ok (),
       page := fun i => if i = 2 then .error "boom" else .ok ⟨9, i, [1, 2]⟩ }
     (((search.NewQuery "q").Size 2).MaxPage 9)
     ⟨2, by decide, "boom", by rfl⟩⟩

/-- C9: `SetConcurrency(n)` stores `max n 1`: every argument strictly below
1 (zero or negative) is clamped to 1 before the atomic store, so the stored
concurrency is always at least 1. -/
theorem C9_SetConcurrency_clamps (c : search.Client) (n : Int) :
    (c.SetConcurrency n).concurrency = max n 1 := by
  simp only [search.Client.SetConcurrency]
  split <;> omega

/-- C5: `shouldStopFetching` returns true exactly when the completed fetch
returned an error, returned no page, or returned a page whose event count
is strictly below the configured page size — so a short page is treated as
the final page. -/
theorem C5_shouldStopFetching_iff (err : Option String)
    (res : Option search.Response) (pageSize : Int) :
    search.shouldStopFetching err res pageSize = true ↔
      (err ≠ none ∨ res = none ∨
        ∃ r, res = some r ∧ ((r.Events.length : Int) < pageSize)) := by
  cases err <;> cases res <;> simp [search.shouldStopFetching]

/-- C10: a `Fetch` call sends at most one error value on its error channel,
whatever the endpoint does (the channel is then closed; when the run blocks
on a zero-capacity semaphore, nothing is ever sent). -/
theorem C10_at_most_one_error (c : search.Client) (ep : search.Endpoint)
    (q : search.Query) :
    (search.Client.Fetch c ep q).errors.length ≤ 1 := by
  simp only [search.Client.Fetch]
  cases (search.Client.fetchAllPages c ep q).err <;> simp

/-- C4 as stated is false at a concrete input: with a stored concurrency of
2 and a max page count of 0 the semaphore capacity
`min(q.maxPages, concurrency)` is 0 — there is no floor of 1. -/
theorem C4_counterexample :
    search.concurrent ((search.NewQuery "error").MaxPage 0)
        (((search.New "acc" "tok").SetConcurrency 2).concurrency) = 0 ∧
      ¬ 1 ≤ search.concurrent ((search.NewQuery "error").MaxPage 0)
        (((search.New "acc" "tok").SetConcurrency 2).concurrency) := by
  decide

/-- C4 amended: after `SetConcurrency n` the semaphore is created with
capacity `min(maxPages, max(n,1))`, with no floor of 1; the capacity is at
least 1 whenever the max page count is at least 1 (but it is 0 when the max
page count is 0). -/
theorem C4_amended_capacity (c : search.Client) (n : Int) (q : search.Query) :
    search.concurrent q ((c.SetConcurrency n).concurrency)
        = min q.maxPages (max n 1) ∧
      (1 ≤ q.maxPages →
        1 ≤ search.concurrent q ((c.SetConcurrency n).concurrency)) := by
  have hc : (c.SetConcurrency n).concurrency = if n < 1 then 1 else n := rfl
  constructor
  · rw [hc]
    simp only [search.concurrent]
    split <;> omega
  · intro h
    rw [hc]
    simp only [search.concurrent]
    split <;> omega

/-- Witness for C4 amended at a concrete input (max page count 3,
concurrency 2): the capacity is `min 3 (max 2 1)` and is at least 1. -/
theorem C4_witness :
    search.concurrent (((search.NewQuery "q").Size 2).MaxPage 3)
        (((search.New "acc" "tok").SetConcurrency 2).concurrency)
        = min (((search.NewQuery "q").Size 2).MaxPage 3).maxPages (max 2 1) ∧
      1 ≤ search.concurrent (((search.NewQuery "q").Size 2).MaxPage 3)
        (((search.New "acc" "tok").SetConcurrency 2).concurrency) :=
  ⟨(C4_amended_capacity (search.New "acc" "tok") 2
      (((search.NewQuery "q").Size 2).MaxPage 3)).1,
   (C4_amended_capacity (search.New "acc" "tok") 2
      (((search.NewQuery "q").Size 2).MaxPage 3)).2 (by decide)⟩

/-- C6: when `CreateSearch` fails, no page is ever fetched or delivered:
the error is surfaced on the error channel and both streams close with
zero pages sent. -/
theorem C6_create_failure_no_pages (c : search.Client) (ep : search.Endpoint)
    (q : search.Query) (e : String) (hc : ep.create = .error e) :
    search.Client.Fetch c ep q
      = { delivered := [], errors := [e], fetched := [], blocked := false } := by
  simp [search.Client.Fetch, search.Client.fetchAllPages, hc]

/-- C1: for every `N` and every permutation of `Store(i, p i)` over indices
`0, …, N-1` (each stored exactly once, in any order — the mutex serialises
the map and channel operations, so any interleaving of concurrent callers
executes some such permutation), the output channel carries
`p 0, …, p (N-1)` in exactly that ascending order, each exactly once. -/
theorem C1_store_permutation_ordered_delivery {T : Type} (N : Nat)
    (p : Nat → T) (ops : List (Int × T))
    (hperm : ops.Perm ((List.range N).map (fun (i : Nat) => ((i : Int), p i)))) :
    (orderedbuffer.runStores (orderedbuffer.NewOrderedBuffer T) ops).2.map
        Prod.snd
      = (List.range N).map p := by
  have hkeysPerm : (orderedbuffer.keys ops).Perm
      ((List.range N).map (fun (i : Nat) => (i : Int))) := by
    have h := hperm.map Prod.fst
    simpa [orderedbuffer.keys, List.map_map] using h
  have hndR : ((List.range N).map (fun (i : Nat) => (i : Int))).Nodup :=
    List.Nodup.map (fun a b hab => by exact_mod_cast hab) (List.nodup_range N)
  have hnd : (orderedbuffer.keys ops).Nodup := hkeysPerm.nodup_iff.mpr hndR
  have hnn : ∀ k ∈ orderedbuffer.keys ops, 0 ≤ k := by
    intro k hk
    obtain ⟨i, _, rfl⟩ := List.mem_map.mp (hkeysPerm.mem_iff.mp hk)
    exact Int.natCast_nonneg i
  obtain ⟨hlen, hout, hma, hsat⟩ := orderedbuffer.runStores_inv ops hnd hnn
  set out := (orderedbuffer.runStores (orderedbuffer.NewOrderedBuffer T) ops).2
    with hout_def
  have hlook : ∀ i : Nat, i < N →
      orderedbuffer.lookup ops (i : Int) = some (p i) := by
    intro i hi
    exact orderedbuffer.lookup_eq_some_of_mem hnd
      (hperm.mem_iff.mpr (List.mem_map.mpr ⟨i, List.mem_range.mpr hi, rfl⟩))
  have hle : out.length ≤ N := by
    by_contra hcon
    push_neg at hcon
    obtain ⟨v, hv⟩ := orderedbuffer.out_lookup_isSome hout hcon
    have hNin : (N : Int) ∈ orderedbuffer.keys ops := by
      by_contra hnot
      rw [(orderedbuffer.lookup_eq_none_iff ops (N : Int)).mpr hnot] at hv
      exact Option.noConfusion hv
    obtain ⟨i, hiN, hieq⟩ := List.mem_map.mp (hkeysPerm.mem_iff.mp hNin)
    have hiN2 : i = N := by exact_mod_cast hieq
    have := List.mem_range.mp hiN
    omega
  have hge : N ≤ out.length := by
    by_contra hcon
    push_neg at hcon
    have hmem : ((out.length : Nat) : Int) ∈ orderedbuffer.keys ops :=
      hkeysPerm.mem_iff.mpr
        (List.mem_map.mpr ⟨out.length, List.mem_range.mpr hcon, rfl⟩)
    rw [hlen] at hsat
    exact (orderedbuffer.lookup_eq_none_iff ops _).mp hsat hmem
  have hN : out.length = N := le_antisymm hle hge
  have hout2 : out.map (fun q => (q.1, some q.2))
      = (List.range N).map (fun (i : Nat) => ((i : Int), some (p i))) := by
    rw [hout, hN]
    apply List.map_congr_left
    intro i hi
    rw [hlook i (List.mem_range.mp hi)]
  have hsnd := congrArg (List.map Prod.snd) hout2
  have h2 : List.map some (out.map Prod.snd)
      = List.map some ((List.range N).map p) := by
    simpa [List.map_map, Function.comp] using hsnd
  exact List.map_injective_iff.mpr (Option.some_injective T) h2

/-- Witness for C1: the permutation `Store(2,30), Store(0,10), Store(1,20)`
of three pages delivers `10, 20, 30` in index order. -/
theorem C1_witness :
    ([(2, 30), (0, 10), (1, 20)] : List (Int × Nat)).Perm
        ((List.range 3).map (fun (i : Nat) => ((i : Int), 10 * (i + 1)))) ∧
      (orderedbuffer.runStores (orderedbuffer.NewOrderedBuffer Nat)
          [(2, 30), (0, 10), (1, 20)]).2.map Prod.snd
        = (List.range 3).map (fun i => 10 * (i + 1)) :=
  ⟨by decide,
   C1_store_permutation_ordered_delivery 3 (fun i => 10 * (i + 1))
     [(2, 30), (0, 10), (1, 20)] (by decide)⟩

/-- C8: under the precondition that each index is stored at most once (and
indices are nonnegative page indices), the delivery cursor never decreases
across operations, the delivered indices are pairwise distinct (no index is
ever delivered twice), and every delivered index has been removed from the
pending map. -/
theorem C8_cursor_monotone_no_redelivery {T : Type} (l1 l2 : List (Int × T))
    (hnd : (orderedbuffer.keys (l1 ++ l2)).Nodup)
    (hnn : ∀ k ∈ orderedbuffer.keys (l1 ++ l2), 0 ≤ k) :
    (orderedbuffer.runStores (orderedbuffer.NewOrderedBuffer T)
          l1).1.lastSentIdx
        ≤ (orderedbuffer.runStores (orderedbuffer.NewOrderedBuffer T)
            (l1 ++ l2)).1.lastSentIdx
      ∧ ((orderedbuffer.runStores (orderedbuffer.NewOrderedBuffer T)
            (l1 ++ l2)).2.map Prod.fst).Nodup
      ∧ ∀ k ∈ (orderedbuffer.runStores (orderedbuffer.NewOrderedBuffer T)
            (l1 ++ l2)).2.map Prod.fst,
          orderedbuffer.lookup
            (orderedbuffer.runStores (orderedbuffer.NewOrderedBuffer T)
              (l1 ++ l2)).1.responses k = none := by
  have hkeysApp : orderedbuffer.keys (l1 ++ l2)
      = orderedbuffer.keys l1 ++ orderedbuffer.keys l2 := by
    simp [orderedbuffer.keys]
  have hnd1 : (orderedbuffer.keys l1).Nodup := by
    rw [hkeysApp] at hnd
    exact (List.nodup_append.mp hnd).1
  have hnn1 : ∀ k ∈ orderedbuffer.keys l1, 0 ≤ k := by
    intro k hk
    apply hnn
    rw [hkeysApp]
    exact List.mem_append.mpr (Or.inl hk)
  obtain ⟨hlen1, hout1, hma1, hsat1⟩ := orderedbuffer.runStores_inv l1 hnd1 hnn1
  obtain ⟨hlen, hout, hma, hsat⟩ :=
    orderedbuffer.runStores_inv (l1 ++ l2) hnd hnn
  refine ⟨?_, ?_, ?_⟩
  · by_contra hcon
    push_neg at hcon
    have hc0 : 0 ≤ (orderedbuffer.runStores (orderedbuffer.NewOrderedBuffer T)
        (l1 ++ l2)).1.lastSentIdx + 1 := by omega
    have hj : ((orderedbuffer.runStores (orderedbuffer.NewOrderedBuffer T)
        (l1 ++ l2)).1.lastSentIdx + 1).toNat
        < (orderedbuffer.runStores (orderedbuffer.NewOrderedBuffer T)
            l1).2.length := by omega
    obtain ⟨v, hv⟩ := orderedbuffer.out_lookup_isSome hout1 hj
    have hcast : ((((orderedbuffer.runStores (orderedbuffer.NewOrderedBuffer T)
        (l1 ++ l2)).1.lastSentIdx + 1).toNat : Nat) : Int)
        = (orderedbuffer.runStores (orderedbuffer.NewOrderedBuffer T)
            (l1 ++ l2)).1.lastSentIdx + 1 := Int.toNat_of_nonneg hc0
    rw [hcast] at hv
    have hmem1 : ((orderedbuffer.runStores (orderedbuffer.NewOrderedBuffer T)
        (l1 ++ l2)).1.lastSentIdx + 1) ∈ orderedbuffer.keys l1 := by
      by_contra hnot
      rw [(orderedbuffer.lookup_eq_none_iff l1 _).mpr hnot] at hv
      exact Option.noConfusion hv
    have hmem : ((orderedbuffer.runStores (orderedbuffer.NewOrderedBuffer T)
        (l1 ++ l2)).1.lastSentIdx + 1) ∈ orderedbuffer.keys (l1 ++ l2) := by
      rw [hkeysApp]
      exact List.mem_append.mpr (Or.inl hmem1)
    exact (orderedbuffer.lookup_eq_none_iff (l1 ++ l2) _).mp hsat hmem
  · have hfst : (orderedbuffer.runStores (orderedbuffer.NewOrderedBuffer T)
        (l1 ++ l2)).2.map Prod.fst
        = (List.range (orderedbuffer.runStores (orderedbuffer.NewOrderedBuffer T)
            (l1 ++ l2)).2.length).map (fun (i : Nat) => (i : Int)) := by
      have := congrArg (List.map Prod.fst) hout
      simpa [List.map_map, Function.comp] using this
    rw [hfst]
    exact List.Nodup.map (fun a b hab => by exact_mod_cast hab)
      (List.nodup_range _)
  · intro k hk
    have hfst : (orderedbuffer.runStores (orderedbuffer.NewOrderedBuffer T)
        (l1 ++ l2)).2.map Prod.fst
        = (List.range (orderedbuffer.runStores (orderedbuffer.NewOrderedBuffer T)
            (l1 ++ l2)).2.length).map (fun (i : Nat) => (i : Int)) := by
      have := congrArg (List.map Prod.fst) hout
      simpa [List.map_map, Function.comp] using this
    rw [hfst] at hk
    obtain ⟨i, hiR, rfl⟩ := List.mem_map.mp hk
    have hil := List.mem_range.mp hiR
    have := hma (i : Int)
    rw [if_neg (by omega)] at this
    exact this

/-- Witness for C8: storing index 1 first, then 0 and 2: the cursor does
not decrease across the split, the delivered indices are distinct, and
index 0 (delivered) is no longer pending. -/
theorem C8_witness :
    (orderedbuffer.runStores (orderedbuffer.NewOrderedBuffer Nat)
          [(1, 10)]).1.lastSentIdx
        ≤ (orderedbuffer.runStores (orderedbuffer.NewOrderedBuffer Nat)
            ([(1, 10)] ++ [(0, 20), (2, 30)])).1.lastSentIdx
      ∧ ((orderedbuffer.runStores (orderedbuffer.NewOrderedBuffer Nat)
            ([(1, 10)] ++ [(0, 20), (2, 30)])).2.map Prod.fst).Nodup
      ∧ orderedbuffer.lookup
          (orderedbuffer.runStores (orderedbuffer.NewOrderedBuffer Nat)
            ([(1, 10)] ++ [(0, 20), (2, 30)])).1.responses 0 = none :=
  ⟨(C8_cursor_monotone_no_redelivery [(1, 10)] [(0, 20), (2, 30)]
      (by decide) (by decide)).1,
   (C8_cursor_monotone_no_redelivery [(1, 10)] [(0, 20), (2, 30)]
      (by decide) (by decide)).2.1,
   (C8_cursor_monotone_no_redelivery [(1, 10)] [(0, 20), (2, 30)]
      (by decide) (by decide)).2.2 0 (by decide)⟩

/-- Witness for C6: a concrete endpoint whose search creation fails. -/
theorem C6_witness :
    search.Client.Fetch (search.New "acc" "tok")
      { create := .error "bad request", page := fun i => .ok ⟨1, i, [7]⟩ }
      (search.NewQuery "q")
      = { delivered := [], errors := ["bad request"], fetched := [],
          blocked := false } :=
  C6_create_failure_no_pages _ _ _ "bad request" rfl

/-- C2: against an endpoint that returns full pages (event count equal to
the query's page size) for indices below `K` and a short page at `K`, with
`K < maxPages` and a stored concurrency of at least 1, `Fetch` delivers
exactly pages `0..K` in ascending order on the response channel, surfaces
no error, completes (so both channels close), and issues exactly the `K+1`
page fetches `0, …, K`.  The spec's concrete scenario (pageSize 2,
maxPages 5, concurrency 2, pages `[e1,e2]`, `[e3,e4]`, `[e5]`) is
instantiated in the witness. -/
theorem C2_short_page_run (c : search.Client) (ep : search.Endpoint)
    (q : search.Query) (K : Int) (r : Int → search.Response)
    (hconc : 1 ≤ c.concurrency) (hK : 0 ≤ K) (hKm : K < q.maxPages)
    (hcreate : ep.create = .ok ())
    (hfull : ∀ i : Int, 0 ≤ i → i < K →
      ep.page i = .ok (r i) ∧ (((r i).Events.length : Int) = q.size))
    (hshort : ep.page K = .ok (r K) ∧ (((r K).Events.length : Int) < q.size)) :
    search.Client.Fetch c ep q
      = { delivered := (search.intsFrom 0 (K.toNat + 1)).map r,
          errors := [],
          fetched := search.intsFrom 0 (K.toNat + 1),
          blocked := false } := by
  have hcap : ¬ search.concurrent q c.concurrency < 1 := by
    simp only [search.concurrent]
    have h1 : 1 ≤ min q.maxPages c.concurrency := le_min (by omega) hconc
    omega
  have HL := search.fetchPagesLoop_full_run ep q K r hKm hfull hshort K.toNat 0
    (by omega) (by omega) ((q.maxPages + 1).toNat + 1) (by omega) [] []
  have hloop : search.fetchPagesLoop ep q ((q.maxPages + 1).toNat + 1)
      search.startState
      = { buf := { responses := [], lastSentIdx := K },
          emitted := [] ++ (search.intsFrom 0 (K.toNat + 1)).map
            (fun i => (i, r i)),
          fetched := [] ++ search.intsFrom 0 (K.toNat + 1),
          firstErr := none, page := K, hasMore := false } := by
    have h01 : (0 : Int) - 1 = -1 := by norm_num
    rw [h01] at HL
    have hstart : search.startState
        = { buf := { responses := [], lastSentIdx := -1 }, emitted := [],
            fetched := [], firstErr := none, page := -1, hasMore := true } := rfl
    rw [hstart]
    exact HL
  have hfa := search.fetchAllPages_ok (u := ()) c q hcreate hcap
  rw [hloop] at hfa
  simp only [List.nil_append] at hfa
  simp only [search.Client.Fetch, hfa]
  simp [List.map_map, Function.comp]

/-- Witness for C2, the spec's concrete scenario: `Query{filter:"error",
pageSize:2, maxPages:5}`, concurrency 2, simulated pages `[1,2]`, `[3,4]`,
`[5]` — the delivered stream is pages 0,1,2, no error is sent, and exactly
the three fetches 0,1,2 are issued. -/
theorem C2_witness :
    search.Client.Fetch ((search.New "acc" "tok").SetConcurrency 2)
      { create := .ok (),
        page := fun i => .ok (if i = 0 then ⟨5, 0, [1, 2]⟩
          else if i = 1 then ⟨5, 1, [3, 4]⟩ else ⟨5, 2, [5]⟩) }
      (((search.NewQuery "error").Size 2).MaxPage 5)
      = { delivered := (search.intsFrom 0 ((2 : Int).toNat + 1)).map
            (fun i => if i = 0 then ⟨5, 0, [1, 2]⟩
              else if i = 1 then ⟨5, 1, [3, 4]⟩ else ⟨5, 2, [5]⟩),
          errors := [],
          fetched := search.intsFrom 0 ((2 : Int).toNat + 1),
          blocked := false } :=
  C2_short_page_run ((search.New "acc" "tok").SetConcurrency 2)
    { create := .ok (),
      page := fun i => .ok (if i = 0 then ⟨5, 0, [1, 2]⟩
        else if i = 1 then ⟨5, 1, [3, 4]⟩ else ⟨5, 2, [5]⟩) }
    (((search.NewQuery "error").Size 2).MaxPage 5) 2
    (fun i => if i = 0 then ⟨5, 0, [1, 2]⟩
      else if i = 1 then ⟨5, 1, [3, 4]⟩ else ⟨5, 2, [5]⟩)
    (by decide) (by decide) (by decide) rfl
    (fun i h0 h2 => by
      have hi : i = 0 ∨ i = 1 := by omega
      rcases hi with hi | hi <;> subst hi <;> exact ⟨rfl, by decide⟩)
    ⟨rfl, by decide⟩

section evaluation_checks

open orderedbuffer

example :
    (runStores (NewOrderedBuffer Nat) [(2, 30), (0, 10), (1, 20)]).2.map Prod.snd
      = [10, 20, 30] := by decide

example :
    (runStores (NewOrderedBuffer Nat) [(0, 10), (2, 30)]).2.map Prod.snd
      = [10] := by decide

example :
    (search.Client.Fetch ((search.New "acc" "tok").SetConcurrency 2)
      { create := .ok (),
        page := fun i =>
          if i = 0 then .ok ⟨5, 0, [1, 2]⟩
          else if i = 1 then .ok ⟨5, 1, [3, 4]⟩
          else if i = 2 then .ok ⟨5, 2, [5]⟩
          else .ok ⟨5, i, []⟩ }
      (((search.NewQuery "error").Size 2).MaxPage 5))
      = { delivered := [⟨5, 0, [1, 2]⟩, ⟨5, 1, [3, 4]⟩, ⟨5, 2, [5]⟩],
          errors := [], fetched := [0, 1, 2], blocked := false } := by decide

example :
    (search.Client.Fetch ((search.New "acc" "tok").SetConcurrency 3)
      { create := .ok (),
        page := fun i => .ok ⟨9, i, [1, 2]⟩ }
      (((search.NewQuery "q").Size 2).MaxPage 2)).fetched = [0, 1, 2] := by
  decide

example :
    (search.Client.Fetch ((search.New "acc" "tok").SetConcurrency 2)
      { create := .ok (), page := fun i => .ok ⟨9, i, [1, 2]⟩ }
      (((search.NewQuery "q").Size 2).MaxPage 0)).blocked = true := by decide

example :
    (search.Client.Fetch ((search.New "acc" "tok").SetConcurrency 2)
      { create := .error "nope", page := fun i => .ok ⟨9, i, [1, 2]⟩ }
      (((search.NewQuery "q").Size 2).MaxPage 3))
      = { delivered := [], errors := ["nope"], fetched := [], blocked := false } := by
  decide

example :
    (search.Client.Fetch ((search.New "acc" "tok").SetConcurrency 1)
      { create := .ok (),
        page := fun i => if i = 2 then .error "boom" else .ok ⟨9, i, [1, 2]⟩ }
      (((search.NewQuery "q").Size 2).MaxPage 9))
      = { delivered := [⟨9, 0, [1, 2]⟩, ⟨9, 1, [1, 2]⟩], errors := ["boom"],
          fetched := [0, 1, 2], blocked := false } := by decide

end evaluation_checks
